import Mathlib

/- Verification of the n-gram model engine: the tokenizer and frequency-model
builder (src/ngram_classes/builder.py) and the autoregressive generator
(src/ngram_classes/generator.py), shallowly embedded in Lean. Python dicts are
modelled as insertion-ordered association lists, defaultdict increments as
update-in-place-or-append operations, and each random draw of the generator
takes an externally supplied choice index. -/

/-- ASCII whitespace as recognised by the Python regex whitespace class and by
str.split with no arguments: space, tab, newline, vertical tab, form feed and
carriage return. -/
def pyIsSpace (c : Char) : Bool :=
  c.toNat = 32 || (9 ≤ c.toNat && c.toNat ≤ 13)

/-- Membership in Python string.punctuation, the 32 ASCII punctuation
characters: codepoints 33 to 47, 58 to 64, 91 to 96 and 123 to 126. -/
def isPunct (c : Char) : Bool :=
  (33 ≤ c.toNat && c.toNat ≤ 47) || (58 ≤ c.toNat && c.toNat ≤ 64) ||
  (91 ≤ c.toNat && c.toNat ≤ 96) || (123 ≤ c.toNat && c.toNat ≤ 126)

/-- The unidecode function of the third-party unidecode library. On ASCII
input it is the identity; transliteration of non-ASCII characters is not
modelled (every input appearing in this development is pure ASCII, where the
library acts as the identity). -/
def unidecode (s : List Char) : List Char :=
  s.filter (fun c => c.toNat < 128)

/-- One step of re.sub applied with the pattern that captures a single
punctuation character and the replacement that surrounds it with spaces:
every punctuation character becomes space, character, space. -/
def punctSpaced (s : List Char) : List Char :=
  s.flatMap (fun c => if isPunct c then [' ', c, ' '] else [c])

/-- Whether the first list is an initial segment of the second. -/
def startsWithL : List Char → List Char → Bool
  | [], _ => true
  | _ :: _, [] => false
  | p :: ps, c :: cs => p = c && startsWithL ps cs

/-- Fuel-driven body of pyReplace. The fuel starts at the length of the text
and every recursive call consumes at least one character of the text, so the
fuel never runs out on the initial call. -/
def pyReplaceFuel : Nat → List Char → List Char → List Char → List Char
  | 0, s, _, _ => s
  | _ + 1, [], _, _ => []
  | fuel + 1, c :: rest, pat, rep =>
    if startsWithL pat (c :: rest) && !pat.isEmpty then
      rep ++ pyReplaceFuel fuel (List.drop pat.length (c :: rest)) pat rep
    else
      c :: pyReplaceFuel fuel rest pat rep

/-- Python str.replace: replaces every non-overlapping occurrence of pat by
rep, scanning left to right (never called with an empty pattern here). -/
def pyReplace (s pat rep : List Char) : List Char :=
  pyReplaceFuel s.length s pat rep

/-- Body of collapseWs; the Boolean records whether the previous character was
part of a whitespace run already emitted as a single space. -/
def collapseWsAux : List Char → Bool → List Char
  | [], _ => []
  | c :: rest, prevSpace =>
    if pyIsSpace c then
      if prevSpace then collapseWsAux rest true
      else ' ' :: collapseWsAux rest true
    else c :: collapseWsAux rest false

/-- re.sub applied with the one-or-more-whitespace pattern and a single space
replacement: every maximal run of whitespace becomes one space. -/
def collapseWs (s : List Char) : List Char :=
  collapseWsAux s false

/-- Body of splitWs; the accumulator holds the characters of the token being
read, in reverse. -/
def splitWsAux : List Char → List Char → List (List Char)
  | [], acc => if acc.isEmpty then [] else [acc.reverse]
  | c :: rest, acc =>
    if pyIsSpace c then
      if acc.isEmpty then splitWsAux rest []
      else acc.reverse :: splitWsAux rest []
    else splitWsAux rest (c :: acc)

/-- Python str.split with no arguments: split on runs of whitespace,
discarding empty pieces. -/
def splitWs (s : List Char) : List (List Char) :=
  splitWsAux s []

/-- The pattern dot space dot space dot, written out of the literal
". . ." appearing in the source. -/
def ellipsisPat : List Char := ['.', ' ', '.', ' ', '.']

/-- The replacement "..." for the ellipsis restoration. -/
def ellipsisRep : List Char := ['.', '.', '.']

/-- The pattern space apostrophe t of the contraction restoration (apostrophe
written by codepoint). -/
def aposTPat : List Char := [' ', Char.ofNat 39, 't']

/-- The replacement apostrophe t of the contraction restoration. -/
def aposTRep : List Char := [Char.ofNat 39, 't']

/-- NGramBuilder.generate_tokens of src/ngram_classes/builder.py:
transliterate and lowercase, surround every punctuation character with
spaces, restore the ellipsis idiom, restore the contraction suffix, collapse
whitespace runs to single spaces, and finally split on whitespace. -/
def generate_tokens (text : String) : List String :=
  let precleaned := (unidecode text.data).map Char.toLower
  let punctspace := punctSpaced precleaned
  let ellipsisRestored := pyReplace punctspace ellipsisPat ellipsisRep
  let quoteTRestored := pyReplace ellipsisRestored aposTPat aposTRep
  let singleSpaces := collapseWs quoteTRestored
  (splitWs singleSpaces).map String.mk

/-- A Python dict from token to count, in insertion order. -/
abbrev Vocab : Type := List (String × Nat)

/-- A Python dict from context key to a dict from next token to count, in
insertion order. -/
abbrev Model : Type := List (String × List (String × Nat))

/-- The defaultdict update d[k] += c: add c to the entry of k, appending a
fresh entry (default 0, then incremented) when k is absent. -/
def bumpBy : List (String × Nat) → String → Nat → List (String × Nat)
  | [], k, c => [(k, c)]
  | (k', v) :: rest, k, c =>
    if k' = k then (k', v + c) :: rest else (k', v) :: bumpBy rest k c

/-- The nested defaultdict update m[k][t] += c on the two-level table. -/
def bump2By : Model → String → String → Nat → Model
  | [], k, t, c => [(k, [(t, c)])]
  | (k', inner) :: rest, k, t, c =>
    if k' = k then (k', bumpBy inner t c) :: rest
    else (k', inner) :: bump2By rest k t c

/-- Joining a list of character lists with single spaces, as the Python
space-join of a token sequence does. -/
def joinSp : List (List Char) → List Char
  | [] => []
  | [t] => t
  | t :: rest => t ++ ' ' :: joinSp rest

/-- The space-join of a token list into a context-key string. -/
def joinTokens (ts : List String) : String :=
  String.mk (joinSp (ts.map String.data))

/-- The state of an NGramBuilder of src/ngram_classes/builder.py: the order
n, the unigram vocabulary dict and the two-level frequency table dict. -/
structure NGramBuilder where
  n : Nat
  vocab : List (String × Nat)
  model : Model
deriving DecidableEq

/-- NGramBuilder.__init__: order n with empty defaultdicts. -/
def NGramBuilder.new (n : Nat) : NGramBuilder :=
  { n := n, vocab := [], model := [] }

/-- The sliding windows of length n over a token list. This is exactly what
the source computes with zip applied to the n suffixes tokens[offset:] for
offset below n: the tuple at position i is tokens[i] through tokens[i+n-1],
and zip of no sequences at all (n = 0) is empty. -/
def windows (n : Nat) (ts : List String) : List (List String) :=
  if n = 0 then []
  else (List.range (ts.length + 1 - n)).map (fun i => (ts.drop i).take n)

/-- NGramBuilder.add_source: tokenize the text; for every window of n tokens
split it as key tokens plus next token and bump model[key][next]; then bump
vocab[token] for every token of the sequence. -/
def add_source (b : NGramBuilder) (text : String) : NGramBuilder :=
  let tokens := generate_tokens text
  let model' := (windows b.n tokens).foldl
    (fun m w => bump2By m (joinTokens w.dropLast) (w.getLastD "") 1) b.model
  let vocab' := tokens.foldl (fun v tok => bumpBy v tok 1) b.vocab
  { b with model := model', vocab := vocab' }

/-- NGramBuilder.copy: a deep copy of the n, vocab and model fields; on the
immutable values of the embedding this is the value itself. -/
def NGramBuilder.copy (b : NGramBuilder) : NGramBuilder :=
  { n := b.n, vocab := b.vocab, model := b.model }

/-- NGramBuilder.__add__, with the state of both operands threaded through:
the result is the outcome together with self and other as they stand after
the call. The source raises when the orders differ, otherwise it writes only
to duplicate, a deep copy of self, so both operands come back unchanged. -/
def addOp (a b : NGramBuilder) :
    Except String NGramBuilder × NGramBuilder × NGramBuilder :=
  if a.n ≠ b.n then (.error "Adding Incompatible Models: N not same.", a, b)
  else
    let duplicate := a.copy
    let vocab' := b.vocab.foldl (fun v p => bumpBy v p.1 p.2) duplicate.vocab
    let model' := b.model.foldl
      (fun acc p => p.2.foldl (fun a2 q => bump2By a2 p.1 q.1 q.2) acc)
      duplicate.model
    (.ok { duplicate with vocab := vocab', model := model' }, a, b)

/-- Dict lookup in an association list (first entry with the key wins, as the
keys of a genuine dict are unique). -/
def lookupAssoc {α : Type} : List (String × α) → String → Option α
  | [], _ => none
  | (k', v) :: rest, k => if k' = k then some v else lookupAssoc rest k

/-- The spread-out pool of a count dict: each token repeated as many times as
its count, in dict order, exactly as the source builds it by extending a list
with token times count. -/
def spreadout (d : List (String × Nat)) : List String :=
  d.flatMap (fun p => List.replicate p.2 p.1)

/-- random.choice: a uniform draw from a pool, modelled by an externally
supplied index taken modulo the pool size; on an empty pool Python raises
IndexError. -/
def randomChoice (pool : List String) (r : Nat) : Except String String :=
  if h : pool.length = 0 then .error "IndexError: empty pool"
  else .ok (pool.get ⟨r % pool.length, Nat.mod_lt r (Nat.pos_of_ne_zero h)⟩)

/-- The dictionary passed to NGramGenerator.load_model, i.e. the wire format
of a persisted model: the two top-level fields, each possibly missing (a
missing field makes the corresponding dict access raise KeyError). -/
structure ModelData where
  vocab : Option Vocab
  model : Option Model
deriving DecidableEq

/-- The fields of an NGramGenerator of src/ngram_classes/generator.py, each
initialized to None by the constructor. -/
structure NGramGenerator where
  param_n : Option Nat
  vocab : Option Vocab
  model : Option Model
  state : Option (List String)
  vocab_spreadout : Option (List String)
deriving DecidableEq

/-- NGramGenerator.__init__: every field None. -/
def NGramGenerator.new : NGramGenerator :=
  { param_n := none, vocab := none, model := none, state := none,
    vocab_spreadout := none }

/-- NGramGenerator.load_model: returns the error message, if any, together
with the generator as it stands after the call. The source assigns the vocab
and model fields from the data (replacing, not merging, any previous model),
rebuilds the spread-out pool, and derives param_n from the distinct key sizes
of the model; the handler for a missing field or for a non-uniform (or empty)
key-size list resets param_n, vocab and model to None and re-raises. Note
that on the missing-field paths the old spread-out pool survives, on the
non-uniform path the freshly rebuilt pool survives, and the generation state
is never touched. -/
def load_model (g : NGramGenerator) (data : ModelData) :
    Option String × NGramGenerator :=
  match data.vocab with
  | none =>
    (some "Broken model file: Missing field vocab",
     { g with param_n := none, vocab := none, model := none })
  | some v =>
    match data.model with
    | none =>
      (some "Broken model file: Missing field model",
       { g with param_n := none, vocab := none, model := none })
    | some m =>
      let vs := spreadout v
      let keySizes := m.map (fun p => (splitWs p.1.data).length)
      match keySizes.dedup with
      | [size] =>
        (none,
         { g with param_n := some (size + 1), vocab := some v,
                  model := some m, vocab_spreadout := some vs })
      | _ =>
        (some "Broken model file: non-uniform parameter N",
         { g with param_n := none, vocab := none, model := none,
                  vocab_spreadout := some vs })

/-- The three runtime shapes accepted for an initial key: a string of
space-separated tokens, a list of tokens, or a tuple of tokens. -/
inductive InitKey where
  | str : String → InitKey
  | list : List String → InitKey
  | tuple : List String → InitKey
deriving DecidableEq

/-- The token sequence of an initial key: a string is split on whitespace, a
list or tuple is taken as given. -/
def seedTokens : InitKey → List String
  | .str s => (splitWs s.data).map String.mk
  | .list ts => ts
  | .tuple ts => ts

/-- NGramGenerator.predict, with the generator state threaded through: the
draw outcome together with the generator as it stands after the call (the
source reads the fields but assigns none of them). Fails when any field is
still None, or when the key does not have param_n minus one tokens; draws
from the table row of the key when present, from the vocabulary pool
otherwise. -/
def predict (g : NGramGenerator) (initKey : InitKey) (r : Nat) :
    Except String String × NGramGenerator :=
  match g.param_n, g.vocab, g.model, g.vocab_spreadout with
  | some pn, some _, some m, some vs =>
    let keyToks := seedTokens initKey
    if keyToks.length ≠ pn - 1 then
      (.error "Initial Phrase must have (N - 1) tokens", g)
    else
      let keyphrase := joinTokens keyToks
      match lookupAssoc m keyphrase with
      | some inner => (randomChoice (spreadout inner) r, g)
      | none => (randomChoice vs r, g)
  | _, _, _, _ => (.error "Cannot predict without loading a model!", g)

/-- The outcome of NGramGenerator.__next__: a drawn token with the updated
generator, the StopIteration signal that silently ends iteration, or a
propagated error, the latter two leaving the generator as recorded. -/
inductive StepResult where
  | tok : String → NGramGenerator → StepResult
  | stopIteration : StepResult
  | err : String → NGramGenerator → StepResult
deriving DecidableEq

/-- Whether a step outcome is a propagated error. -/
def StepResult.isErrStep : StepResult → Bool
  | .err _ _ => true
  | _ => false

/-- Whether a step outcome returns a token. -/
def StepResult.isTok : StepResult → Bool
  | .tok _ _ => true
  | _ => false

/-- NGramGenerator.__next__: raise StopIteration when the state is None;
otherwise join the state into a keyphrase, predict the next token, slide the
state window by popping its head and appending the drawn token, and return
the token. -/
def nextStep (g : NGramGenerator) (r : Nat) : StepResult :=
  match g.state with
  | none => .stopIteration
  | some st =>
    let keyphrase := joinTokens st
    match predict g (.str keyphrase) r with
    | (.error e, g') => .err e g'
    | (.ok next_token, g') =>
      match st with
      | [] => .err "IndexError: pop from empty list" g'
      | _ :: rest => .tok next_token { g' with state := some (rest ++ [next_token]) }

/-- A well-formed bigram model file: vocab entries a and b, one context key
of one token. -/
def dataA : ModelData :=
  { vocab := some [("a", 1), ("b", 1)], model := some [("a", [("b", 1)])] }

/-- A model file whose model mapping is empty, with a well-formed (empty)
vocab field present. -/
def dataEmpty : ModelData :=
  { vocab := some [], model := some [] }

/-- A model file whose context keys imply inconsistent orders: one key of one
token next to one key of two tokens. -/
def dataInc : ModelData :=
  { vocab := some [], model := some [("a", [("x", 1)]), ("a b", [("x", 1)])] }

/-- A well-formed trigram model file: its only context key has two tokens. -/
def dataB3 : ModelData :=
  { vocab := some [("c", 1)], model := some [("c d", [("e", 1)])] }

/-- A generator that has successfully loaded the bigram file dataA. -/
def gA : NGramGenerator := (load_model NGramGenerator.new dataA).2

/-- The count a dict holds for a key, zero when the key is absent. -/
def lookupCnt : List (String × Nat) → String → Nat
  | [], _ => 0
  | (k', v) :: rest, k => if k' = k then v else lookupCnt rest k

/-- The count a two-level table holds for a key and next token, zero when
either level is absent. -/
def lookup2Cnt : Model → String → String → Nat
  | [], _, _ => 0
  | (k', inner) :: rest, k, t => if k' = k then lookupCnt inner t else lookup2Cnt rest k t

/-- The total count an association list attributes to a key across all of its
entries, duplicates included. -/
def sumFor : List (String × Nat) → String → Nat
  | [], _ => 0
  | (k, c) :: rest, t => (if k = t then c else 0) + sumFor rest t

/-- The total count a two-level association list attributes to a key and
next token across all of its entries, duplicates included. -/
def sum2For : Model → String → String → Nat
  | [], _, _ => 0
  | (k', inner) :: rest, k, t => (if k' = k then sumFor inner t else 0) + sum2For rest k t

/-- An association list with pairwise distinct keys, as every Python dict
is. -/
def NodupKeys {α : Type} (d : List (String × α)) : Prop :=
  (d.map Prod.fst).Nodup

instance {α : Type} (d : List (String × α)) : Decidable (NodupKeys d) := by
  unfold NodupKeys
  infer_instance

/-- A two-level table whose outer dict and every inner dict have pairwise
distinct keys, as the nested Python dicts do. -/
def ModelWF (m : Model) : Prop :=
  NodupKeys m ∧ ∀ p ∈ m, NodupKeys p.2

instance (m : Model) : Decidable (ModelWF m) := by
  unfold ModelWF
  exact instDecidableAnd

/-- Whether an outcome of the builder addition is a success. -/
def isOkE (e : Except String NGramBuilder) : Bool :=
  match e with
  | .ok _ => true
  | .error _ => false

/-- The builder carried by a successful outcome (fresh empty builder
otherwise; only applied to successes). -/
def getOkB (e : Except String NGramBuilder) : NGramBuilder :=
  match e with
  | .ok c => c
  | .error _ => NGramBuilder.new 0

/-- A small builder trained on one two-token text, used as a concrete merge
operand. -/
def bA : NGramBuilder := add_source (NGramBuilder.new 2) "a b"

/-- A second small builder trained on another two-token text. -/
def bB : NGramBuilder := add_source (NGramBuilder.new 2) "b c"

/-- The sum of all counts of a one-level dict. -/
def vocabTotal (d : List (String × Nat)) : Nat :=
  (d.map Prod.snd).sum

/-- The sum of all counts across the two levels of a table: the number of
single-count increments that built it from empty. -/
def modelTotal (m : Model) : Nat :=
  (m.map (fun p => vocabTotal p.2)).sum

/-- The builders reachable from a fresh order-n builder by training on texts
and by successful merges with other reachable builders. -/
inductive Reach (n : Nat) : NGramBuilder → Prop where
  | init : Reach n (NGramBuilder.new n)
  | add (b : NGramBuilder) (text : String) :
      Reach n b → Reach n (add_source b text)
  | merge (b1 b2 b3 : NGramBuilder) : Reach n b1 → Reach n b2 →
      (addOp b1 b2).1 = Except.ok b3 → Reach n b3

theorem lookupCnt_bumpBy (d : List (String × Nat)) (k : String) (c : Nat)
    (t : String) :
    lookupCnt (bumpBy d k c) t = lookupCnt d t + (if k = t then c else 0) := by
  induction d with
  | nil =>
    by_cases h : k = t <;> simp [bumpBy, lookupCnt, h]
  | cons p rest ih =>
    obtain ⟨k', v⟩ := p
    by_cases hk : k' = k
    · subst hk
      by_cases ht : k' = t <;> simp [bumpBy, lookupCnt, ht]
    · by_cases ht : k' = t
      · subst ht
        have : ¬k = k' := fun h => hk h.symm
        simp [bumpBy, lookupCnt, hk, this]
      · simp [bumpBy, lookupCnt, hk, ht, ih]

theorem sumFor_eq_zero_of_not_mem (d : List (String × Nat)) (t : String)
    (h : t ∉ d.map Prod.fst) : sumFor d t = 0 := by
  induction d with
  | nil => rfl
  | cons p rest ih =>
    obtain ⟨k, c⟩ := p
    simp only [List.map_cons, List.mem_cons] at h
    push_neg at h
    have hk : ¬k = t := fun hkt => h.1 hkt.symm
    simp [sumFor, hk, ih h.2]

theorem sumFor_eq_lookupCnt (d : List (String × Nat)) (t : String)
    (h : NodupKeys d) : sumFor d t = lookupCnt d t := by
  induction d with
  | nil => rfl
  | cons p rest ih =>
    obtain ⟨k, c⟩ := p
    unfold NodupKeys at h
    simp only [List.map_cons, List.nodup_cons] at h
    by_cases hk : k = t
    · subst hk
      simp [sumFor, lookupCnt, sumFor_eq_zero_of_not_mem rest k h.1]
    · have hk' : ¬k = t := hk
      simp [sumFor, lookupCnt, hk', ih h.2]

theorem sum2For_eq_zero_of_not_mem (m : Model) (k t : String)
    (h : k ∉ m.map Prod.fst) : sum2For m k t = 0 := by
  induction m with
  | nil => rfl
  | cons p rest ih =>
    obtain ⟨k', inner⟩ := p
    simp only [List.map_cons, List.mem_cons] at h
    push_neg at h
    have hk : ¬k' = k := fun hkk => h.1 hkk.symm
    simp [sum2For, hk, ih h.2]

theorem sum2For_eq_lookup2Cnt (m : Model) (k t : String) (h : ModelWF m) :
    sum2For m k t = lookup2Cnt m k t := by
  obtain ⟨houter, hinner⟩ := h
  induction m with
  | nil => rfl
  | cons p rest ih =>
    obtain ⟨k', inner⟩ := p
    unfold NodupKeys at houter
    simp only [List.map_cons, List.nodup_cons] at houter
    by_cases hk : k' = k
    · subst hk
      have hz : sum2For rest k' t = 0 :=
        sum2For_eq_zero_of_not_mem rest k' t houter.1
      have hin : NodupKeys inner := hinner (k', inner) (by simp)
      simp [sum2For, lookup2Cnt, hz, sumFor_eq_lookupCnt inner t hin]
    · have ihr := ih houter.2 (fun p hp => hinner p (by simp [hp]))
      simp [sum2For, lookup2Cnt, hk, ihr]

theorem foldl_bumpBy_lookupCnt (entries : List (String × Nat))
    (init : List (String × Nat)) (t : String) :
    lookupCnt (entries.foldl (fun v p => bumpBy v p.1 p.2) init) t =
      lookupCnt init t + sumFor entries t := by
  induction entries generalizing init with
  | nil => simp [sumFor]
  | cons p rest ih =>
    obtain ⟨k, c⟩ := p
    simp only [List.foldl_cons, ih, lookupCnt_bumpBy, sumFor]
    omega

theorem lookup2Cnt_bump2By (m : Model) (k t : String) (c : Nat)
    (k' t' : String) :
    lookup2Cnt (bump2By m k t c) k' t' =
      lookup2Cnt m k' t' +
        (if k = k' then (if t = t' then c else 0) else 0) := by
  induction m with
  | nil =>
    by_cases hk : k = k'
    · subst hk
      by_cases ht : t = t' <;> simp [bump2By, lookup2Cnt, lookupCnt, ht]
    · have : ¬k = k' := hk
      simp [bump2By, lookup2Cnt, lookupCnt, this]
  | cons p rest ih =>
    obtain ⟨k0, inner⟩ := p
    by_cases hk0 : k0 = k
    · subst hk0
      by_cases hk' : k0 = k'
      · subst hk'
        simp [bump2By, lookup2Cnt, lookupCnt_bumpBy]
      · have : ¬k0 = k' := hk'
        simp [bump2By, lookup2Cnt, this]
    · by_cases hk' : k0 = k'
      · subst hk'
        have : ¬k = k0 := fun h => hk0 h.symm
        simp [bump2By, lookup2Cnt, hk0, this]
      · simp [bump2By, lookup2Cnt, hk0, hk', ih]

theorem foldl_bump2By_inner (inner : List (String × Nat)) (init : Model)
    (k k' t' : String) :
    lookup2Cnt (inner.foldl (fun a2 q => bump2By a2 k q.1 q.2) init) k' t' =
      lookup2Cnt init k' t' + (if k = k' then sumFor inner t' else 0) := by
  induction inner generalizing init with
  | nil => simp [sumFor]
  | cons q rest ih =>
    obtain ⟨t, c⟩ := q
    simp only [List.foldl_cons, ih, lookup2Cnt_bump2By, sumFor]
    by_cases hk : k = k' <;> by_cases ht : t = t' <;> simp [hk, ht] <;> omega

theorem foldl_bump2By_outer (entries : Model) (init : Model)
    (k' t' : String) :
    lookup2Cnt
        (entries.foldl
          (fun acc p => p.2.foldl (fun a2 q => bump2By a2 p.1 q.1 q.2) acc)
          init) k' t' =
      lookup2Cnt init k' t' + sum2For entries k' t' := by
  induction entries generalizing init with
  | nil => simp [sum2For]
  | cons p rest ih =>
    obtain ⟨k, inner⟩ := p
    simp only [List.foldl_cons, ih, foldl_bump2By_inner, sum2For]
    omega

/-- C5. The builder addition is a pure combine: both operands come back
exactly as they went in, the operation fails precisely when the two orders
differ, and on success the result keeps the common order and holds the
element-wise sum of the two vocab dicts and of the two tables. The
distinct-keys hypotheses record that the right operand is a genuine Python
dict (keys of a dict are unique). -/
theorem add_is_pure_combine (a b : NGramBuilder) (hv : NodupKeys b.vocab)
    (hm : ModelWF b.model) :
    (addOp a b).2.1 = a ∧
    (addOp a b).2.2 = b ∧
    (isOkE (addOp a b).1 = true ↔ a.n = b.n) ∧
    (a.n = b.n →
      (getOkB (addOp a b).1).n = a.n ∧
      (∀ t, lookupCnt (getOkB (addOp a b).1).vocab t =
        lookupCnt a.vocab t + lookupCnt b.vocab t) ∧
      (∀ k t, lookup2Cnt (getOkB (addOp a b).1).model k t =
        lookup2Cnt a.model k t + lookup2Cnt b.model k t)) := by
  by_cases h : a.n = b.n
  · refine ⟨by simp [addOp, h], by simp [addOp, h], by simp [addOp, h, isOkE],
      fun _ => ⟨by simp [addOp, h, getOkB, NGramBuilder.copy], ?_, ?_⟩⟩
    · intro t
      simp [addOp, h, getOkB, NGramBuilder.copy, foldl_bumpBy_lookupCnt,
        sumFor_eq_lookupCnt b.vocab t hv]
    · intro k t
      simp [addOp, h, getOkB, NGramBuilder.copy, foldl_bump2By_outer,
        sum2For_eq_lookup2Cnt b.model k t hm]
  · exact ⟨by simp [addOp, h], by simp [addOp, h],
      by simp [addOp, h, isOkE], fun hn => absurd hn h⟩

/-- C5 witness: the pure-combine facts evaluated on two concrete order-2
builders. -/
theorem add_is_pure_combine_witness :
    (addOp bA bB).2.1 = bA ∧
    (addOp bA bB).2.2 = bB ∧
    lookupCnt (getOkB (addOp bA bB).1).vocab "b" =
      lookupCnt bA.vocab "b" + lookupCnt bB.vocab "b" ∧
    lookup2Cnt (getOkB (addOp bA bB).1).model "b" "c" =
      lookup2Cnt bA.model "b" "c" + lookup2Cnt bB.model "b" "c" :=
  ⟨(add_is_pure_combine bA bB (by decide) (by decide)).1,
   (add_is_pure_combine bA bB (by decide) (by decide)).2.1,
   ((add_is_pure_combine bA bB (by decide) (by decide)).2.2.2 rfl).2.1 "b",
   ((add_is_pure_combine bA bB (by decide) (by decide)).2.2.2 rfl).2.2 "b" "c"⟩

theorem vocabTotal_bumpBy (d : List (String × Nat)) (k : String) (c : Nat) :
    vocabTotal (bumpBy d k c) = vocabTotal d + c := by
  induction d with
  | nil => simp [bumpBy, vocabTotal]
  | cons p rest ih =>
    obtain ⟨k', v⟩ := p
    by_cases hk : k' = k <;> simp [bumpBy, vocabTotal, hk] <;>
      simp [vocabTotal] at ih <;> omega

theorem modelTotal_bump2By (m : Model) (k t : String) (c : Nat) :
    modelTotal (bump2By m k t c) = modelTotal m + c := by
  induction m with
  | nil => simp [bump2By, modelTotal, vocabTotal]
  | cons p rest ih =>
    obtain ⟨k', inner⟩ := p
    by_cases hk : k' = k <;>
      simp [bump2By, modelTotal, hk, vocabTotal_bumpBy] <;>
      simp [modelTotal] at ih <;> omega

theorem foldl_bump2By_modelTotal (ws : List (List String)) (init : Model) :
    modelTotal (ws.foldl
      (fun m w => bump2By m (joinTokens w.dropLast) (w.getLastD "") 1)
      init) = modelTotal init + ws.length := by
  induction ws generalizing init with
  | nil => simp
  | cons w rest ih =>
    simp only [List.foldl_cons, ih, modelTotal_bump2By, List.length_cons]
    omega

theorem windows_length (n : Nat) (ts : List String) (hn : n ≠ 0) :
    (windows n ts).length = ts.length + 1 - n := by
  simp [windows, hn]

theorem windows_nil_of_short (n : Nat) (ts : List String)
    (h : ts.length < n) : windows n ts = [] := by
  have hn : n ≠ 0 := by omega
  have hz : ts.length + 1 - n = 0 := by omega
  simp [windows, hn, hz]

theorem foldl_bump_vocab_count (ts : List String)
    (init : List (String × Nat)) (t : String) :
    lookupCnt (ts.foldl (fun v tok => bumpBy v tok 1) init) t =
      lookupCnt init t + ts.count t := by
  induction ts generalizing init with
  | nil => simp
  | cons tok rest ih =>
    simp only [List.foldl_cons, ih, lookupCnt_bumpBy]
    by_cases h : tok = t <;> simp [List.count_cons, h] <;> omega

/-- C7. One add_source call at order n performs exactly one table increment
per length-n window — that is, exactly the maximum of zero and the token
count minus n plus one increments, which is the number of windows — and
bumps vocab once per occurrence of every token of the tokenized text; when
the text tokenizes to fewer than n tokens the table is untouched while the
vocab update still happens. -/
theorem add_source_counts (b : NGramBuilder) (text : String)
    (hn : 2 ≤ b.n) :
    (((windows b.n (generate_tokens text)).length : Int) =
      max 0 (((generate_tokens text).length : Int) - (b.n : Int) + 1)) ∧
    modelTotal (add_source b text).model =
      modelTotal b.model + (windows b.n (generate_tokens text)).length ∧
    (∀ t, lookupCnt (add_source b text).vocab t =
      lookupCnt b.vocab t + (generate_tokens text).count t) ∧
    ((generate_tokens text).length < b.n →
      (add_source b text).model = b.model) := by
  have hn0 : b.n ≠ 0 := by omega
  refine ⟨?_, ?_, fun t => ?_, fun h => ?_⟩
  · rw [windows_length _ _ hn0]
    omega
  · simp only [add_source]
    exact foldl_bump2By_modelTotal _ _
  · simp [add_source, foldl_bump_vocab_count]
  · simp [add_source, windows_nil_of_short _ _ h]

/-- C7 witness: the counting facts evaluated on a fresh order-2 builder and a
three-token text. -/
theorem add_source_counts_witness :
    modelTotal (add_source (NGramBuilder.new 2) "a b c").model =
      modelTotal (NGramBuilder.new 2).model +
        (windows 2 (generate_tokens "a b c")).length ∧
    lookupCnt (add_source (NGramBuilder.new 2) "a b c").vocab "a" =
      lookupCnt (NGramBuilder.new 2).vocab "a" +
        (generate_tokens "a b c").count "a" ∧
    ((windows 2 (generate_tokens "a b c")).length : Int) =
      max 0 (((generate_tokens "a b c").length : Int) - (2 : Int) + 1) :=
  ⟨(add_source_counts (NGramBuilder.new 2) "a b c" (by decide)).2.1,
   (add_source_counts (NGramBuilder.new 2) "a b c" (by decide)).2.2.1 "a",
   (add_source_counts (NGramBuilder.new 2) "a b c" (by decide)).1⟩

/-- Whatever branch predict takes, the generator it hands back is the one it
received: the source reads the fields of self and assigns none of them. -/
theorem predict_snd (g : NGramGenerator) (k : InitKey) (r : Nat) :
    (predict g k r).2 = g := by
  rcases g with ⟨gp, gv, gm, gs, gvs⟩
  cases gp <;> cases gv <;> cases gm <;> cases gvs <;>
    simp only [predict] <;> split <;> try rfl
  split <;> rfl

/-- C3. The spec claims that for every text containing three consecutive
dots, generate_tokens yields a single ellipsis token because whitespace
collapsing precedes the dot-space-dot-space-dot restoration. In the source
the restoration runs before collapsing, while punctuation spacing always
leaves two spaces between consecutive dots, so the restoration never fires:
the text with an embedded ellipsis tokenizes to three separate dot tokens. -/
theorem ellipsis_fragments_eval :
    generate_tokens "wait... what" = ["wait", ".", ".", ".", "what"] := by
  decide

/-- C6. Training a fresh order-2 builder on the concrete sentence of the spec
produces exactly the claimed table and vocabulary (shown here in the
insertion order the code produces, which carries the same dict contents). -/
theorem concrete_training_scenario :
    (add_source (NGramBuilder.new 2) "the cat sat. the dog sat.").model =
      [("the", [("cat", 1), ("dog", 1)]), ("cat", [("sat", 1)]),
       ("sat", [(".", 2)]), (".", [("the", 1)]), ("dog", [("sat", 1)])] ∧
    (add_source (NGramBuilder.new 2) "the cat sat. the dog sat.").vocab =
      [("the", 2), ("cat", 1), ("sat", 2), (".", 2), ("dog", 1)] := by
  decide

/-- C1 counterexample. The claim that a failed load leaves the previously
loaded model untouched is false: after successfully loading the bigram file,
loading the empty model file fails and the stored order is wiped out rather
than preserved. -/
theorem load_failed_not_atomic_cex :
    gA.param_n = some 2 ∧
    (load_model gA dataEmpty).1.isSome = true ∧
    (load_model gA dataEmpty).2.param_n ≠ gA.param_n := by
  decide

/-- C1 amended. A failed load does not partially merge counts, but neither
does it preserve the prior model: every failing path of load_model resets
param_n, vocab and model to None (only the generation state survives). -/
theorem load_model_failure_resets (g : NGramGenerator) (data : ModelData)
    (h : (load_model g data).1.isSome = true) :
    (load_model g data).2.param_n = none ∧
    (load_model g data).2.vocab = none ∧
    (load_model g data).2.model = none ∧
    (load_model g data).2.state = g.state := by
  rcases data with ⟨dv, dm⟩
  cases dv with
  | none => simp [load_model]
  | some v =>
    cases dm with
    | none => simp [load_model]
    | some m =>
      rcases hks : (m.map (fun p => (splitWs p.1.data).length)).dedup with
        _ | ⟨s, _ | ⟨s2, r2⟩⟩
      · simp [load_model, hks]
      · simp [load_model, hks] at h
      · simp [load_model, hks]

/-- C1 witness: the amended fact evaluated on the failed empty-model load
after a successful bigram load. -/
theorem load_model_failure_resets_witness :
    (load_model gA dataEmpty).2.param_n = none ∧
    (load_model gA dataEmpty).2.vocab = none ∧
    (load_model gA dataEmpty).2.model = none ∧
    (load_model gA dataEmpty).2.state = gA.state :=
  load_model_failure_resets gA dataEmpty (by decide)

/-- C2 counterexample. The claim that a second load merges counts, locks n
and rejects a model of different order with OrderMismatch is false: after
loading the bigram file, loading the trigram file succeeds and rebinds the
order to 3, and reloading the bigram file itself leaves its vocab counts
unsummed (the dict is replaced, not accumulated). -/
theorem load_no_merge_no_order_check_cex :
    gA.param_n = some 2 ∧
    (load_model gA dataB3).1 = none ∧
    (load_model gA dataB3).2.param_n = some 3 ∧
    (load_model gA dataA).2.vocab = some [("a", 1), ("b", 1)] := by
  decide

/-- C2 amended. Loading any well-formed model (both fields present, all
context keys of one and the same token count) always succeeds, whatever was
loaded before, and replaces the vocab and model wholesale, recomputing n as
the key token count plus one and rebuilding the spread-out pool; no merging
with and no comparison against the previous model takes place. -/
theorem load_model_success_replaces (g : NGramGenerator) (data : ModelData)
    (v : Vocab) (m : Model) (size : Nat)
    (hv : data.vocab = some v) (hm : data.model = some m)
    (hd : (m.map (fun p => (splitWs p.1.data).length)).dedup = [size]) :
    load_model g data =
      (none, { param_n := some (size + 1), vocab := some v, model := some m,
               state := g.state, vocab_spreadout := some (spreadout v) }) := by
  simp [load_model, hv, hm, hd]

/-- C2 witness: the amended fact evaluated on loading the trigram file over
the bigram-loaded generator. -/
theorem load_model_success_replaces_witness :
    load_model gA dataB3 =
      (none, { param_n := some 3, vocab := some [("c", 1)],
               model := some [("c d", [("e", 1)])], state := none,
               vocab_spreadout := some ["c"] }) :=
  load_model_success_replaces gA dataB3 [("c", 1)] [("c d", [("e", 1)])] 2
    rfl rfl (by decide)

/-- C4 counterexample. The claim that stepping a never-started generator
reports a NotStarted failure is false: on a fresh generator the step neither
propagates an error nor returns a token — it raises StopIteration, the
signal that silently ends iteration. -/
theorem step_unstarted_not_error_cex :
    nextStep NGramGenerator.new 0 = StepResult.stopIteration ∧
    (nextStep NGramGenerator.new 0).isErrStep = false ∧
    (nextStep NGramGenerator.new 0).isTok = false := by
  decide

/-- C4 amended. Stepping a generator whose generation state is unset — in
particular one on which the start call was never invoked — raises
StopIteration, silently ending iteration, instead of failing with a
NotStarted error; no token is returned. -/
theorem step_unstarted_stops (g : NGramGenerator) (r : Nat)
    (h : g.state = none) : nextStep g r = StepResult.stopIteration := by
  unfold nextStep
  rw [h]

/-- C4 witness: the amended fact evaluated on the fresh generator. -/
theorem step_unstarted_stops_witness :
    nextStep NGramGenerator.new 0 = StepResult.stopIteration :=
  step_unstarted_stops NGramGenerator.new 0 rfl

/-- C9 counterexample. The claim that an empty model mapping fails with an
EmptyModel error distinct from the inconsistent-order failure is false: the
empty model file and the inconsistent-keys model file produce the very same
non-uniform-parameter error. -/
theorem empty_model_error_not_distinct_cex :
    (load_model NGramGenerator.new dataEmpty).1 =
      some "Broken model file: non-uniform parameter N" ∧
    (load_model NGramGenerator.new dataInc).1 =
      (load_model NGramGenerator.new dataEmpty).1 := by
  decide

/-- C9 amended. Loading a model whose model mapping is empty (even with a
well-formed vocab field) does fail, but with the same non-uniform-parameter
error that inconsistent key lengths produce, not with a distinct EmptyModel
error: the list of distinct key sizes is empty, which fails the
exactly-one-size check. -/
theorem load_model_empty_fails (g : NGramGenerator) (data : ModelData)
    (v : Vocab) (hv : data.vocab = some v) (hm : data.model = some []) :
    (load_model g data).1 =
      some "Broken model file: non-uniform parameter N" := by
  simp [load_model, hv, hm]

/-- C9 witness: the amended fact evaluated on the empty model file loaded
over the bigram-loaded generator. -/
theorem load_model_empty_fails_witness :
    (load_model gA dataEmpty).1 =
      some "Broken model file: non-uniform parameter N" :=
  load_model_empty_fails gA dataEmpty [] rfl rfl

/-- C10. predict never slides the generation state nor touches any other
field: with a loaded model and a seed of n minus one tokens, the generator
after the call is the one before it, so predict can be called repeatedly
without affecting a generation run (only the step of the iterator moves the
window). -/
theorem predict_leaves_generator_unchanged (g : NGramGenerator)
    (key : InitKey) (r pn : Nat) (_h1 : g.param_n = some pn)
    (_h2 : g.vocab.isSome = true) (_h3 : g.model.isSome = true)
    (_h4 : g.vocab_spreadout.isSome = true)
    (_h5 : (seedTokens key).length = pn - 1) :
    (predict g key r).2 = g :=
  predict_snd g key r

/-- C10 witness: predict evaluated on the bigram-loaded generator with a
one-token seed. -/
theorem predict_leaves_generator_unchanged_witness :
    (predict gA (InitKey.list ["a"]) 0).2 = gA :=
  predict_leaves_generator_unchanged gA (InitKey.list ["a"]) 0 2 (by decide)
    (by decide) (by decide) (by decide) (by decide)

/-- Every token splitWs produces is nonempty and free of whitespace
characters, provided the accumulator only holds non-whitespace characters. -/
theorem splitWsAux_good (s : List Char) (acc : List Char)
    (hacc : ∀ c ∈ acc, pyIsSpace c = false) :
    ∀ l ∈ splitWsAux s acc, l ≠ [] ∧ ∀ c ∈ l, pyIsSpace c = false := by
  induction s generalizing acc with
  | nil =>
    intro l hl
    by_cases h : acc.isEmpty
    · simp [splitWsAux, h] at hl
    · simp [splitWsAux, h] at hl
      subst hl
      refine ⟨fun hrev => ?_, fun c hc => hacc c (List.mem_reverse.mp hc)⟩
      rw [List.reverse_eq_nil_iff] at hrev
      subst hrev
      simp at h
  | cons c rest ih =>
    intro l hl
    cases hsp : pyIsSpace c with
    | true =>
      by_cases hacc' : acc.isEmpty
      · simp [splitWsAux, hsp, hacc'] at hl
        exact ih [] (by simp) l hl
      · simp [splitWsAux, hsp, hacc'] at hl
        rcases hl with hl | hl
        · subst hl
          refine ⟨fun hrev => ?_, fun d hd => hacc d (List.mem_reverse.mp hd)⟩
          rw [List.reverse_eq_nil_iff] at hrev
          subst hrev
          simp at hacc'
        · exact ih [] (by simp) l hl
    | false =>
      simp only [splitWsAux, hsp, Bool.false_eq_true, if_false] at hl
      refine ih (c :: acc) ?_ l hl
      intro d hd
      rcases List.mem_cons.mp hd with rfl | hd'
      · exact hsp
      · exact hacc d hd'

/-- Reading a run of non-whitespace characters just moves them, reversed,
onto the accumulator. -/
theorem splitWsAux_append_nonspace (t : List Char) (s acc : List Char)
    (ht : ∀ c ∈ t, pyIsSpace c = false) :
    splitWsAux (t ++ s) acc = splitWsAux s (t.reverse ++ acc) := by
  induction t generalizing acc with
  | nil => simp
  | cons c rest ih =>
    have hc : pyIsSpace c = false := ht c (by simp)
    show splitWsAux (c :: (rest ++ s)) acc = _
    simp only [splitWsAux, hc, Bool.false_eq_true, if_false]
    rw [ih (c :: acc) (fun d hd => ht d (by simp [hd]))]
    simp

/-- Splitting on whitespace is a left inverse of joining with single spaces,
on lists of nonempty whitespace-free tokens. -/
theorem splitWs_joinSp (ts : List (List Char))
    (h : ∀ t ∈ ts, t ≠ [] ∧ ∀ c ∈ t, pyIsSpace c = false) :
    splitWs (joinSp ts) = ts := by
  induction ts with
  | nil => rfl
  | cons t rest ih =>
    obtain ⟨htne, htns⟩ := h t (by simp)
    cases rest with
    | nil =>
      show splitWsAux (joinSp [t]) [] = [t]
      have hj : joinSp [t] = t ++ [] := by simp [joinSp]
      rw [hj, splitWsAux_append_nonspace t [] [] htns]
      have hne : t.reverse.isEmpty = false := by
        simp [List.isEmpty_iff, htne]
      simp [splitWsAux, hne]
    | cons t2 rest2 =>
      show splitWsAux (joinSp (t :: t2 :: rest2)) [] = t :: t2 :: rest2
      have hjoin : joinSp (t :: t2 :: rest2) =
          t ++ ' ' :: joinSp (t2 :: rest2) := by
        rfl
      rw [hjoin, splitWsAux_append_nonspace t _ [] htns]
      have hsp : pyIsSpace ' ' = true := by decide
      have hne : t.reverse.isEmpty = false := by
        simp [List.isEmpty_iff, htne]
      simp only [splitWsAux, hsp, if_true, List.append_nil, hne,
        Bool.false_eq_true, if_false, List.reverse_reverse]
      have ihx := ih (fun t' ht' => h t' (by simp [ht']))
      unfold splitWs at ihx
      rw [ihx]

/-- Every token of generate_tokens is a nonempty string containing no
whitespace character: the token list is the output of a whitespace split. -/
theorem generate_tokens_good (text : String) :
    ∀ tok ∈ generate_tokens text,
      tok.data ≠ [] ∧ ∀ c ∈ tok.data, pyIsSpace c = false := by
  intro tok htok
  simp only [generate_tokens, List.mem_map] at htok
  obtain ⟨l, hl, rfl⟩ := htok
  exact splitWsAux_good _ [] (by simp) l hl

/-- Every window has exactly n tokens. -/
theorem windows_mem_length (n : Nat) (ts : List String) (w : List String)
    (hw : w ∈ windows n ts) : w.length = n := by
  unfold windows at hw
  by_cases hn : n = 0
  · simp [hn] at hw
  · simp only [hn, if_false, List.mem_map, List.mem_range] at hw
    obtain ⟨i, hi, rfl⟩ := hw
    simp only [List.length_take, List.length_drop]
    omega

/-- Every token of a window occurs in the token list. -/
theorem windows_mem_subset (n : Nat) (ts : List String) (w : List String)
    (hw : w ∈ windows n ts) : ∀ x ∈ w, x ∈ ts := by
  unfold windows at hw
  by_cases hn : n = 0
  · simp [hn] at hw
  · simp only [hn, if_false, List.mem_map, List.mem_range] at hw
    obtain ⟨i, _, rfl⟩ := hw
    intro x hx
    exact List.drop_subset i ts (List.take_subset n _ hx)

/-- The context key built from a window of the tokenization of a text splits
back into exactly the window length minus one tokens. -/
theorem window_key_size (n : Nat) (text : String) (w : List String)
    (hw : w ∈ windows n (generate_tokens text)) :
    (splitWs (joinTokens w.dropLast).data).length = n - 1 := by
  have hsplit : splitWs (joinSp (w.dropLast.map String.data)) =
      w.dropLast.map String.data := by
    apply splitWs_joinSp
    intro t ht
    simp only [List.mem_map] at ht
    obtain ⟨tok, htok, rfl⟩ := ht
    have htok' : tok ∈ w := List.dropLast_subset w htok
    exact generate_tokens_good text tok
      (windows_mem_subset n _ w hw tok htok')
  show (splitWs (joinSp (w.dropLast.map String.data))).length = n - 1
  rw [hsplit]
  simp only [List.length_map, List.length_dropLast]
  rw [windows_mem_length n _ w hw]

/-- The keys of a bumped table are the bumped key and the old keys. -/
theorem bump2By_keys (m : Model) (k t : String) (c : Nat) :
    ∀ k' ∈ (bump2By m k t c).map Prod.fst,
      k' = k ∨ k' ∈ m.map Prod.fst := by
  induction m with
  | nil => simp [bump2By]
  | cons p rest ih =>
    obtain ⟨k0, inner⟩ := p
    by_cases hk : k0 = k
    · subst hk
      simp [bump2By]
    · intro k' hk'
      simp only [bump2By, hk, if_false, List.map_cons, List.mem_cons] at hk'
      rcases hk' with rfl | hk'
      · simp
      · rcases ih k' hk' with rfl | hmem
        · exact Or.inl rfl
        · exact Or.inr (by simp [hmem])

/-- All keys of a table obey a property preserved by a fold of bumps whose
new keys obey it. -/
theorem foldl_bump2_keysOk (P : String → Prop) (ws : List (List String))
    (init : Model) (hinit : ∀ k ∈ init.map Prod.fst, P k)
    (hws : ∀ w ∈ ws, P (joinTokens w.dropLast)) :
    ∀ k ∈ ((ws.foldl
      (fun m w => bump2By m (joinTokens w.dropLast) (w.getLastD "") 1)
      init)).map Prod.fst, P k := by
  induction ws generalizing init with
  | nil => exact hinit
  | cons w rest ih =>
    simp only [List.foldl_cons]
    apply ih
    · intro k hk
      rcases bump2By_keys init _ _ _ k hk with rfl | hk'
      · exact hws w (by simp)
      · exact hinit k hk'
    · intro w' hw'
      exact hws w' (by simp [hw'])

/-- All keys of a table obey a property preserved by the inner merge fold of
one entry whose key obeys it. -/
theorem foldl_bump2_inner_keysOk (P : String → Prop)
    (inner : List (String × Nat)) (init : Model) (k : String)
    (hinit : ∀ k' ∈ init.map Prod.fst, P k') (hk : P k) :
    ∀ k' ∈ ((inner.foldl (fun a2 q => bump2By a2 k q.1 q.2) init)).map
      Prod.fst, P k' := by
  induction inner generalizing init with
  | nil => exact hinit
  | cons q rest ih =>
    simp only [List.foldl_cons]
    apply ih
    intro k' hk'
    rcases bump2By_keys init _ _ _ k' hk' with rfl | hk''
    · exact hk
    · exact hinit k' hk''

/-- All keys of a table obey a property preserved by the outer merge fold
over entries whose keys obey it. -/
theorem foldl_bump2_outer_keysOk (P : String → Prop) (entries : Model)
    (init : Model) (hinit : ∀ k ∈ init.map Prod.fst, P k)
    (hent : ∀ k ∈ entries.map Prod.fst, P k) :
    ∀ k ∈ ((entries.foldl
      (fun acc p => p.2.foldl (fun a2 q => bump2By a2 p.1 q.1 q.2) acc)
      init)).map Prod.fst, P k := by
  induction entries generalizing init with
  | nil => exact hinit
  | cons p rest ih =>
    simp only [List.foldl_cons]
    apply ih
    · exact foldl_bump2_inner_keysOk P p.2 init p.1 hinit
        (hent p.1 (by simp))
    · intro k hk
      exact hent k (by simp [hk])

/-- Every reachable builder keeps the order it was created with. -/
theorem reach_n (n : Nat) (b : NGramBuilder) (h : Reach n b) : b.n = n := by
  induction h with
  | init => rfl
  | add b' text _ ih => exact ih
  | merge b1 b2 b3 _ _ heq ih1 ih2 =>
    by_cases hne : b1.n = b2.n
    · simp only [addOp, hne, ne_eq, not_true_eq_false, if_false,
        Except.ok.injEq] at heq
      rw [← heq]
      exact ih1
    · simp [addOp, hne] at heq

/-- C8. Context-key invariant: every builder reachable from a fresh builder
of order n at least 2, by any sequence of add_source calls and successful
merges with other reachable builders, has a table all of whose keys split on
whitespace into exactly n minus one tokens. -/
theorem context_key_invariant (n : Nat) (b : NGramBuilder) (_hn : 2 ≤ n)
    (hr : Reach n b) :
    ∀ k ∈ b.model.map Prod.fst, (splitWs k.data).length = n - 1 := by
  induction hr with
  | init => simp [NGramBuilder.new]
  | add b' text hr' ih =>
    have hbn : b'.n = n := reach_n n b' hr'
    show ∀ k ∈ (add_source b' text).model.map Prod.fst,
      (splitWs k.data).length = n - 1
    simp only [add_source]
    apply foldl_bump2_keysOk _ _ _ ih
    intro w hw
    rw [hbn] at hw
    exact window_key_size n text w hw
  | merge b1 b2 b3 hr1 hr2 heq ih1 ih2 =>
    by_cases hne : b1.n = b2.n
    · simp only [addOp, hne, ne_eq, not_true_eq_false, if_false,
        Except.ok.injEq] at heq
      rw [← heq]
      exact foldl_bump2_outer_keysOk _ b2.model b1.model ih1 ih2
    · simp [addOp, hne] at heq

/-- C8 witness: the invariant evaluated on the key of a builder reached by
one training call at order 2. -/
theorem context_key_invariant_witness :
    (splitWs ("a".data)).length = 2 - 1 :=
  context_key_invariant 2 (add_source (NGramBuilder.new 2) "a b c")
    (by decide) (Reach.add _ _ Reach.init) "a" (by decide)
